import Mathlib

/-!
Shallow embedding of the scan-orchestration core of `sauron`
(`src/fs_scan.rs` and `src/fs_monitor.rs`), together with theorems
settling the specification claims about it.

Modelling conventions:
* A filesystem path is carried together with the value that
  `std::path::Path::extension()` returns for it (`ext`), since extension
  extraction is standard-library behaviour external to this core.
* The current filesystem state (queried by `path.is_file()` /
  `path.exists()` in watch mode) is an explicit oracle `FsState`.
* The external detection capability (`engine.scan`) is a parameter
  `scan : FsPath → ScanResult`.
* The shared `AtomicU32` counters are naturals reduced modulo `2 ^ 32`
  at every `fetch_add`, mirroring `u32` wrap-around.
* Worker-pool execution is modelled job-by-job: the closure of each
  submitted job is a pure function of its `ScanResult`; for claims about
  intermediate counter states, the closure body is additionally broken
  into its individual atomic counter operations (`CounterOp`), in the
  order the source performs them.
-/

namespace Sauron

/-- The `u32` modulus: the shared counters are `AtomicU32` and wrap at `2 ^ 32`. -/
def u32Size : Nat := 2 ^ 32

/-- A filesystem path, carried with the value `Path::extension()` yields for it. -/
structure FsPath where
  name : String
  ext : Option String
deriving DecidableEq, Repr

/-- File type of a directory entry, as `walkdir::DirEntry::file_type()` would
report it (the walk-mode code never consults it). -/
inductive EntryKind where
  | file
  | dir
  | symlink
  | other
deriving DecidableEq, Repr

/-- One entry yielded by the `WalkDir` traversal. -/
structure WalkEntry where
  path : FsPath
  kind : EntryKind
deriving DecidableEq, Repr

/-- The configuration handed to both `start` functions (`crate::Arguments`):
root path, worker count, extension allow-list. -/
structure Arguments where
  root : String
  workers : Nat
  ext : List String
deriving DecidableEq, Repr

/-- Outcome of one scan job, as produced by the external engine
(`engine.scan`): detection flag, tags, optional error. -/
structure ScanResult where
  detected : Bool
  tags : List String
  error : Option String
deriving DecidableEq, Repr

/-- Snapshot of the filesystem state at the moment a candidate path is
checked: the answers `path.is_file()` and `path.exists()` would give. -/
structure FsState where
  isFile : FsPath → Bool
  pathExists : FsPath → Bool

/-- The shared walk-mode counters `num_scanned` / `num_detected`
(`AtomicU32`, initialised to 0). -/
structure Counters where
  scanned : Nat
  detected : Nat
deriving DecidableEq, Repr

/-- Structured log output relevant to the claims. -/
inductive LogEvent where
  /-- the debug log emitted for a job whose result carries an error. -/
  | debugError (e : String)
  /-- the malware-detection warning, with path and joined tags. -/
  | warnDetection (path : FsPath) (tags : String)
  /-- the final info-level aggregate report of walk mode. -/
  | infoReport (scanned detected : Nat)
  /-- the trace log for an ignored remove / chmod event. -/
  | traceIgnored (path : FsPath)
  /-- the debug log for a rescan notice. -/
  | debugRescan
  /-- the error log for an error-carrying notification. -/
  | errorEvent (e : String) (path : Option FsPath)
  /-- the error log emitted when the receive call itself fails. -/
  | errorRecv (e : String)
deriving DecidableEq, Repr

/-! ### Walk mode (`src/fs_scan.rs`) -/

/-- Per-character lowercasing of a string, modelling `str::to_lowercase` as
used for the case-insensitive extension comparison. -/
def lowerStr (s : String) : String :=
  ⟨s.data.map Char.toLower⟩

/-- The extension filter of `fs_scan::start` (lines 30-41): `do_scan` is
initialised to `args.ext.is_empty()`; otherwise the extension of the entry,
if any, is compared case-insensitively against every allow-list entry. -/
def walkDoScan (extList : List String) (p : FsPath) : Bool :=
  if extList.isEmpty then true
  else
    match p.ext with
    | none => false
    | some e => extList.any fun filterExt => lowerStr filterExt == lowerStr e

/-- The entry stream after `.filter_map(|e| e.ok())`: traversal errors are
dropped, `Ok` entries pass through. -/
def walkCandidates (entries : List (Except String WalkEntry)) : List WalkEntry :=
  entries.filterMap fun e =>
    match e with
    | .ok en => some en
    | .error _ => none

/-- The entries for which `fs_scan::start` submits a scan job to the pool:
every surviving entry whose path passes the extension filter. There is no
file-type check in walk mode. -/
def walkSubmitted (args : Arguments) (entries : List (Except String WalkEntry)) :
    List WalkEntry :=
  (walkCandidates entries).filter fun en => walkDoScan args.ext en.path

/-- Body of the walk-mode worker closure (`fs_scan.rs` lines 52-67) for one
completed job: log/count according to the result, then increment `scanned`. -/
def handleResult (path : FsPath) (r : ScanResult) (c : Counters) :
    List LogEvent × Counters :=
  match r.error with
  | some e => ([.debugError e], { c with scanned := (c.scanned + 1) % u32Size })
  | none =>
    if r.detected then
      ([.warnDetection path (String.intercalate ", " r.tags)],
        { scanned := (c.scanned + 1) % u32Size,
          detected := (c.detected + 1) % u32Size })
    else
      ([], { c with scanned := (c.scanned + 1) % u32Size })

/-- Completion of all submitted jobs, accumulating logs and counters. -/
def walkRunJobs (jobs : List (FsPath × ScanResult)) (c : Counters) :
    List LogEvent × Counters :=
  match jobs with
  | [] => ([], c)
  | (p, r) :: rest =>
    let step := handleResult p r c
    let next := walkRunJobs rest step.2
    (step.1 ++ next.1, next.2)

/-- A full walk-mode run over a list of submitted jobs: all jobs complete
(`pool.join()`), then the aggregate report is logged. -/
def walkRun (jobs : List (FsPath × ScanResult)) : List LogEvent × Counters :=
  let finished := walkRunJobs jobs ⟨0, 0⟩
  (finished.1 ++ [.infoReport finished.2.scanned finished.2.detected], finished.2)

/-- The walk-mode entry point `fs_scan::start` end to end: traverse, filter,
run every submitted job, report. The function body has no early-error path
and always returns `Ok(())`. -/
def fsScanStart (args : Arguments) (entries : List (Except String WalkEntry))
    (scan : FsPath → ScanResult) : List LogEvent × Except String Unit :=
  let jobs := (walkSubmitted args entries).map fun en => (en.path, scan en.path)
  ((walkRun jobs).1, .ok ())

/-! ### Fine-grained counter operations

The worker closure performs its two counter increments in a fixed order:
`num_detected` first (inside the detection branch), `num_scanned` last.
`CounterOp` records one atomic increment; `jobOps` is the sequence the
closure of one job performs. -/

/-- One atomic `fetch_add(1, SeqCst)` on a shared counter. -/
inductive CounterOp where
  | incScanned
  | incDetected
deriving DecidableEq, Repr

/-- The counter operations performed by the closure of one job, in source
order: on error only `scanned`; on detection `detected` then `scanned`;
otherwise only `scanned`. -/
def jobOps (r : ScanResult) : List CounterOp :=
  match r.error with
  | some _ => [.incScanned]
  | none => if r.detected then [.incDetected, .incScanned] else [.incScanned]

/-- Effect of one atomic increment (wrapping at `2 ^ 32`). -/
def applyOp (c : Counters) : CounterOp → Counters
  | .incScanned => { c with scanned := (c.scanned + 1) % u32Size }
  | .incDetected => { c with detected := (c.detected + 1) % u32Size }

/-- Effect of a sequence of atomic increments. -/
def applyOps (c : Counters) (ops : List CounterOp) : Counters :=
  ops.foldl applyOp c

/-- The counter-operation trace of a run in the single-worker schedule, one
`jobOps` block per job. A multi-worker run executes some interleaving of the
per-job blocks instead; since each atomic increment commutes with the
others, the state at any point where a set of jobs has completed (and no job
is between its two increments) is the state after some permutation of the
trace of those completed jobs, which is how the theorems below quantify
over arbitrary worker schedules. -/
def runTrace (jobs : List (FsPath × ScanResult)) : List CounterOp :=
  (jobs.map fun j => jobOps j.2).flatten

/-! ### Watch mode (`src/fs_monitor.rs`) -/

/-- The debounced filesystem-notification event type consumed by the watch
loop. -/
inductive DebouncedEvent where
  | create (path : FsPath)
  | noticeWrite (path : FsPath)
  | write (path : FsPath)
  | rename (old new : FsPath)
  | noticeRemove (path : FsPath)
  | chmod (path : FsPath)
  | remove (path : FsPath)
  | rescan
  | error (e : String) (path : Option FsPath)
deriving DecidableEq, Repr

/-- What `rx.recv()` yields: an event, or a receive error (in particular the
error a permanently closed channel returns forever). -/
inductive WatchMsg where
  | ok (ev : DebouncedEvent)
  | recvError (e : String)
deriving DecidableEq, Repr

/-- Whether one iteration of the watch loop continues or leaves the loop. -/
inductive LoopOutcome where
  | next
  | exit
deriving DecidableEq, Repr

/-- Result of one iteration of the watch loop: whether the loop continues,
the path submitted to the pool (if any), and what was logged. -/
structure WatchStepOut where
  outcome : LoopOutcome
  submitted : Option FsPath
  logs : List LogEvent
deriving DecidableEq, Repr

/-- One iteration of the `loop` in `fs_monitor::start` (lines 31-80).
Create / NoticeWrite / Write / Rename(_, new) submit the (destination) path
when it is an existing regular file; remove / chmod / rescan / error
notifications and receive errors are logged and the loop continues.
Every branch continues: the loop has no exit. `args` is in scope for the
whole loop body; the body never consults it (in particular not `args.ext`). -/
def loopStep (args : Arguments) (fs : FsState) (m : WatchMsg) : WatchStepOut :=
  match m with
  | .ok ev =>
    match ev with
    | .create path | .noticeWrite path | .write path | .rename _ path =>
      if fs.isFile path && fs.pathExists path then
        ⟨.next, some path, []⟩
      else
        ⟨.next, none, []⟩
    | .noticeRemove path => ⟨.next, none, [.traceIgnored path]⟩
    | .chmod path => ⟨.next, none, [.traceIgnored path]⟩
    | .remove path => ⟨.next, none, [.traceIgnored path]⟩
    | .rescan => ⟨.next, none, [.debugRescan]⟩
    | .error e mp => ⟨.next, none, [.errorEvent e mp]⟩
  | .recvError e => ⟨.next, none, [.errorRecv e]⟩

/-- The path (if any) the watch loop submits for a received event. -/
def watchSubmit (args : Arguments) (fs : FsState) (ev : DebouncedEvent) :
    Option FsPath :=
  (loopStep args fs (.ok ev)).submitted

/-- Body of the watch-mode worker closure (`fs_monitor.rs` lines 45-55):
identical to the walk-mode one but with no counters. -/
def watchHandleResult (path : FsPath) (r : ScanResult) : List LogEvent :=
  match r.error with
  | some e => [.debugError e]
  | none =>
    if r.detected then [.warnDetection path (String.intercalate ", " r.tags)]
    else []

/-- Running the watch loop over a finite sequence of received messages:
`.exit` as soon as an iteration leaves the loop, `.next` (still running)
otherwise. -/
def runLoop (args : Arguments) (fs : FsState) : List WatchMsg → LoopOutcome
  | [] => .next
  | m :: rest =>
    match (loopStep args fs m).outcome with
    | .exit => .exit
    | .next => runLoop args fs rest

/-- How `fs_monitor::start` terminates, as a function of the outcomes of its
two fallible start-up calls (`watcher(..)` and `watcher.watch(..)`, each
propagated with `?`): it returns `Err` from one of them, or enters the
receive loop and never returns. -/
inductive MonitorOutcome where
  /-- the function returns `Err e` before any event is processed. -/
  | fatal (e : String)
  /-- the function enters the infinite receive loop (it never returns). -/
  | loops
deriving DecidableEq, Repr

/-- The start-up control flow of `fs_monitor::start` (lines 15-31). -/
def fsMonitorStart (watcherInit : Except String Unit)
    (watchInstall : Except String Unit) : MonitorOutcome :=
  match watcherInit with
  | .error e => .fatal e
  | .ok _ =>
    match watchInstall with
    | .error e => .fatal e
    | .ok _ => .loops

/-! ### Statement-level helpers -/

/-- Characterization used in statements: the event kinds on which the watch
loop may submit a job (create, pre-write notice, write, rename). -/
def kindAccepted : DebouncedEvent → Bool
  | .create _ | .noticeWrite _ | .write _ | .rename _ _ => true
  | .noticeRemove _ | .chmod _ | .remove _ | .rescan | .error _ _ => false

/-- The jobs counted by `num_detected`: no error and detection flag set. -/
def isHit (j : FsPath × ScanResult) : Bool :=
  j.2.error.isNone && j.2.detected

/-- A filesystem snapshot in which every path is an existing regular file,
used for concrete instantiations. -/
def fsAllTrue : FsState := ⟨fun _ => true, fun _ => true⟩

/-! ### Helper lemmas -/

theorem u32Size_pos : 0 < u32Size := by
  norm_num [u32Size]

theorem handleResult_scanned (p : FsPath) (r : ScanResult) (c : Counters) :
    (handleResult p r c).2.scanned = (c.scanned + 1) % u32Size := by
  rcases r with ⟨det, tags, err⟩
  cases err <;> cases det <;> rfl

theorem handleResult_detected (p : FsPath) (r : ScanResult) (c : Counters) :
    (handleResult p r c).2.detected =
      if isHit (p, r) then (c.detected + 1) % u32Size else c.detected := by
  rcases r with ⟨det, tags, err⟩
  cases err <;> cases det <;> rfl

theorem walkRunJobs_scanned (jobs : List (FsPath × ScanResult)) :
    ∀ c : Counters, c.scanned < u32Size →
      (walkRunJobs jobs c).2.scanned = (c.scanned + jobs.length) % u32Size := by
  induction jobs with
  | nil =>
    intro c hs
    simpa [walkRunJobs] using (Nat.mod_eq_of_lt hs).symm
  | cons j rest ih =>
    intro c hs
    obtain ⟨p, r⟩ := j
    have hstep : (handleResult p r c).2.scanned = (c.scanned + 1) % u32Size :=
      handleResult_scanned p r c
    have hlt : (handleResult p r c).2.scanned < u32Size := by
      rw [hstep]; exact Nat.mod_lt _ u32Size_pos
    calc (walkRunJobs ((p, r) :: rest) c).2.scanned
        = (walkRunJobs rest (handleResult p r c).2).2.scanned := rfl
      _ = ((handleResult p r c).2.scanned + rest.length) % u32Size :=
            ih (handleResult p r c).2 hlt
      _ = ((c.scanned + 1) % u32Size + rest.length) % u32Size := by rw [hstep]
      _ = (c.scanned + 1 + rest.length) % u32Size := Nat.mod_add_mod _ _ _
      _ = (c.scanned + ((p, r) :: rest).length) % u32Size := by
            rw [List.length_cons]; congr 1; omega

theorem walkRunJobs_detected (jobs : List (FsPath × ScanResult)) :
    ∀ c : Counters, c.detected < u32Size →
      (walkRunJobs jobs c).2.detected =
        (c.detected + jobs.countP isHit) % u32Size := by
  induction jobs with
  | nil =>
    intro c hd
    simpa [walkRunJobs] using (Nat.mod_eq_of_lt hd).symm
  | cons j rest ih =>
    intro c hd
    obtain ⟨p, r⟩ := j
    have hopen : (walkRunJobs ((p, r) :: rest) c).2.detected
        = (walkRunJobs rest (handleResult p r c).2).2.detected := rfl
    by_cases hj : isHit (p, r) = true
    · have hd' : (handleResult p r c).2.detected = (c.detected + 1) % u32Size := by
        rw [handleResult_detected, if_pos hj]
      have hlt : (handleResult p r c).2.detected < u32Size := by
        rw [hd']; exact Nat.mod_lt _ u32Size_pos
      have hcount : ((p, r) :: rest).countP isHit = rest.countP isHit + 1 := by
        simp [List.countP_cons, hj]
      calc (walkRunJobs ((p, r) :: rest) c).2.detected
          = (walkRunJobs rest (handleResult p r c).2).2.detected := hopen
        _ = ((handleResult p r c).2.detected + rest.countP isHit) % u32Size :=
              ih _ hlt
        _ = ((c.detected + 1) % u32Size + rest.countP isHit) % u32Size := by
              rw [hd']
        _ = (c.detected + 1 + rest.countP isHit) % u32Size :=
              Nat.mod_add_mod _ _ _
        _ = (c.detected + ((p, r) :: rest).countP isHit) % u32Size := by
              rw [hcount]; congr 1; omega
    · have hd' : (handleResult p r c).2.detected = c.detected := by
        rw [handleResult_detected, if_neg hj]
      have hlt : (handleResult p r c).2.detected < u32Size := by
        rw [hd']; exact hd
      have hcount : ((p, r) :: rest).countP isHit = rest.countP isHit := by
        simp [List.countP_cons, hj]
      rw [hopen, ih _ hlt, hd', hcount]

theorem handleResult_applyOps (p : FsPath) (r : ScanResult) (c : Counters) :
    (handleResult p r c).2 = applyOps c (jobOps r) := by
  rcases r with ⟨det, tags, err⟩
  cases err <;> cases det <;> rfl

theorem walkRunJobs_trace (jobs : List (FsPath × ScanResult)) :
    ∀ c : Counters, applyOps c (runTrace jobs) = (walkRunJobs jobs c).2 := by
  induction jobs with
  | nil => intro c; rfl
  | cons j rest ih =>
    intro c
    obtain ⟨p, r⟩ := j
    have hsplit : runTrace ((p, r) :: rest) = jobOps r ++ runTrace rest := by
      simp [runTrace]
    have happ : applyOps c (jobOps r ++ runTrace rest)
        = applyOps (applyOps c (jobOps r)) (runTrace rest) := by
      simp [applyOps, List.foldl_append]
    rw [hsplit, happ, ← handleResult_applyOps p r c]
    exact ih (handleResult p r c).2

theorem applyOps_scanned (t : List CounterOp) :
    ∀ c : Counters, c.scanned < u32Size →
      (applyOps c t).scanned
        = (c.scanned + t.count CounterOp.incScanned) % u32Size := by
  induction t with
  | nil =>
    intro c hs
    simpa [applyOps] using (Nat.mod_eq_of_lt hs).symm
  | cons op rest ih =>
    intro c hs
    cases op with
    | incScanned =>
      have hlt : ((c.scanned + 1) % u32Size) < u32Size :=
        Nat.mod_lt _ u32Size_pos
      have hcons : (CounterOp.incScanned :: rest).count CounterOp.incScanned
          = rest.count CounterOp.incScanned + 1 := by
        simp [List.count_cons]
      calc (applyOps c (CounterOp.incScanned :: rest)).scanned
          = (applyOps (applyOp c .incScanned) rest).scanned := rfl
        _ = ((c.scanned + 1) % u32Size
              + rest.count CounterOp.incScanned) % u32Size :=
              ih (applyOp c .incScanned) hlt
        _ = (c.scanned + 1 + rest.count CounterOp.incScanned) % u32Size :=
              Nat.mod_add_mod _ _ _
        _ = (c.scanned
              + (CounterOp.incScanned :: rest).count CounterOp.incScanned)
              % u32Size := by
              rw [hcons]; congr 1; omega
    | incDetected =>
      have hcons : (CounterOp.incDetected :: rest).count CounterOp.incScanned
          = rest.count CounterOp.incScanned := by
        simp [List.count_cons]
      calc (applyOps c (CounterOp.incDetected :: rest)).scanned
          = (applyOps (applyOp c .incDetected) rest).scanned := rfl
        _ = (c.scanned + rest.count CounterOp.incScanned) % u32Size :=
              ih (applyOp c .incDetected) hs
        _ = (c.scanned
              + (CounterOp.incDetected :: rest).count CounterOp.incScanned)
              % u32Size := by
              rw [hcons]

theorem applyOps_detected (t : List CounterOp) :
    ∀ c : Counters, c.detected < u32Size →
      (applyOps c t).detected
        = (c.detected + t.count CounterOp.incDetected) % u32Size := by
  induction t with
  | nil =>
    intro c hd
    simpa [applyOps] using (Nat.mod_eq_of_lt hd).symm
  | cons op rest ih =>
    intro c hd
    cases op with
    | incDetected =>
      have hlt : ((c.detected + 1) % u32Size) < u32Size :=
        Nat.mod_lt _ u32Size_pos
      have hcons : (CounterOp.incDetected :: rest).count CounterOp.incDetected
          = rest.count CounterOp.incDetected + 1 := by
        simp [List.count_cons]
      calc (applyOps c (CounterOp.incDetected :: rest)).detected
          = (applyOps (applyOp c .incDetected) rest).detected := rfl
        _ = ((c.detected + 1) % u32Size
              + rest.count CounterOp.incDetected) % u32Size :=
              ih (applyOp c .incDetected) hlt
        _ = (c.detected + 1 + rest.count CounterOp.incDetected) % u32Size :=
              Nat.mod_add_mod _ _ _
        _ = (c.detected
              + (CounterOp.incDetected :: rest).count CounterOp.incDetected)
              % u32Size := by
              rw [hcons]; congr 1; omega
    | incScanned =>
      have hcons : (CounterOp.incScanned :: rest).count CounterOp.incDetected
          = rest.count CounterOp.incDetected := by
        simp [List.count_cons]
      calc (applyOps c (CounterOp.incScanned :: rest)).detected
          = (applyOps (applyOp c .incScanned) rest).detected := rfl
        _ = (c.detected + rest.count CounterOp.incDetected) % u32Size :=
              ih (applyOp c .incScanned) hd
        _ = (c.detected
              + (CounterOp.incScanned :: rest).count CounterOp.incDetected)
              % u32Size := by
              rw [hcons]

theorem runTrace_count_scanned (l : List (FsPath × ScanResult)) :
    (runTrace l).count CounterOp.incScanned = l.length := by
  induction l with
  | nil => rfl
  | cons j rest ih =>
    have hsplit : runTrace (j :: rest) = jobOps j.2 ++ runTrace rest := by
      simp [runTrace]
    have hjob : (jobOps j.2).count CounterOp.incScanned = 1 := by
      obtain ⟨p, r⟩ := j
      rcases r with ⟨det, tags, err⟩
      cases err <;> cases det <;> rfl
    rw [hsplit, List.count_append, hjob, ih, Nat.add_comm, List.length_cons]

theorem runTrace_count_detected (l : List (FsPath × ScanResult)) :
    (runTrace l).count CounterOp.incDetected = l.countP isHit := by
  induction l with
  | nil => rfl
  | cons j rest ih =>
    have hsplit : runTrace (j :: rest) = jobOps j.2 ++ runTrace rest := by
      simp [runTrace]
    have hjob : (jobOps j.2).count CounterOp.incDetected
        = if isHit j then 1 else 0 := by
      obtain ⟨p, r⟩ := j
      rcases r with ⟨det, tags, err⟩
      cases err <;> cases det <;> rfl
    rw [hsplit, List.count_append, hjob, ih, Nat.add_comm, List.countP_cons]

theorem jobOps_incDetected (r : ScanResult)
    (h : CounterOp.incDetected ∈ jobOps r) :
    r.detected = true ∧ r.error = none := by
  rcases r with ⟨det, tags, err⟩
  cases err <;> cases det <;> simp_all [jobOps]

theorem loopStep_outcome (args : Arguments) (fs : FsState) (m : WatchMsg) :
    (loopStep args fs m).outcome = LoopOutcome.next := by
  cases m with
  | ok ev =>
    cases ev <;> simp only [loopStep] <;> first | rfl | (split <;> rfl)
  | recvError e => rfl

theorem runLoop_next (args : Arguments) (fs : FsState) (msgs : List WatchMsg) :
    runLoop args fs msgs = LoopOutcome.next := by
  induction msgs with
  | nil => rfl
  | cons m rest ih =>
    show (match (loopStep args fs m).outcome with
      | .exit => LoopOutcome.exit
      | .next => runLoop args fs rest) = LoopOutcome.next
    rw [loopStep_outcome]
    exact ih

theorem mem_walkCandidates (entries : List (Except String WalkEntry))
    (en : WalkEntry) :
    en ∈ walkCandidates entries ↔ Except.ok en ∈ entries := by
  simp only [walkCandidates, List.mem_filterMap]
  constructor
  · rintro ⟨a, ha, hfa⟩
    cases a with
    | ok b =>
      simp only [Option.some.injEq] at hfa
      exact hfa ▸ ha
    | error e => cases hfa
  · intro h
    exact ⟨Except.ok en, h, rfl⟩

theorem mem_walkSubmitted (args : Arguments)
    (entries : List (Except String WalkEntry)) (en : WalkEntry) :
    en ∈ walkSubmitted args entries ↔
      Except.ok en ∈ entries ∧ walkDoScan args.ext en.path = true := by
  simp [walkSubmitted, List.mem_filter, mem_walkCandidates]

theorem submit_if_eq (fs : FsState) (q p : FsPath)
    (h : (if (fs.isFile q && fs.pathExists q) = true
          then some q else (none : Option FsPath)) = some p) :
    fs.isFile p = true ∧ fs.pathExists p = true := by
  split at h
  · rename_i hc
    obtain rfl := Option.some.inj h
    simpa using hc
  · cases h

theorem watchSubmit_isFile (args : Arguments) (fs : FsState)
    (ev : DebouncedEvent) (p : FsPath)
    (h : watchSubmit args fs ev = some p) :
    fs.isFile p = true ∧ fs.pathExists p = true := by
  cases ev <;>
    simp only [watchSubmit, loopStep, apply_ite WatchStepOut.submitted] at h <;>
    first
    | exact submit_if_eq fs _ p h
    | exact Option.noConfusion h

/-! ### Claims -/

/-- C1, counterexample. The claim states that in both modes a scan job is
submitted only for a path that refers to an existing regular file, with
directories never submitted. This is false in walk mode: the filter in
`fs_scan::start` never consults the file type of an entry, so with an empty
allow-list a directory entry yielded by the traversal is submitted as a scan
job. -/
theorem c1_walk_submits_directory_cex :
    walkSubmitted ⟨"/tmp/root", 1, []⟩
        [Except.ok ⟨⟨"/tmp/root", none⟩, EntryKind.dir⟩]
      = [⟨⟨"/tmp/root", none⟩, EntryKind.dir⟩] ∧
    EntryKind.dir ≠ EntryKind.file :=
  ⟨rfl, by decide⟩

/-- C1, amended. In watch mode, a scan job is submitted only if, at the
moment of acceptance, the path is reported by the filesystem as an existing
regular file. In walk mode, no file-type verification is performed: an entry
is submitted iff the traversal yielded it without error and its path passes
the extension filter, regardless of its kind (directories included). -/
theorem c1_regular_file_check_amended :
    (∀ (args : Arguments) (fs : FsState) (ev : DebouncedEvent) (p : FsPath),
        watchSubmit args fs ev = some p →
          fs.isFile p = true ∧ fs.pathExists p = true) ∧
    (∀ (args : Arguments) (entries : List (Except String WalkEntry))
        (en : WalkEntry),
        en ∈ walkSubmitted args entries ↔
          Except.ok en ∈ entries ∧ walkDoScan args.ext en.path = true) :=
  ⟨fun args fs ev p h => watchSubmit_isFile args fs ev p h,
   fun args entries en => mem_walkSubmitted args entries en⟩

/-- C1, witness: in watch mode a write event for a path the filesystem
reports as an existing regular file is submitted, and the theorem recovers
both filesystem facts from that submission. -/
theorem c1_regular_file_check_witness :
    fsAllTrue.isFile ⟨"/w/a.txt", some "txt"⟩ = true ∧
      fsAllTrue.pathExists ⟨"/w/a.txt", some "txt"⟩ = true :=
  c1_regular_file_check_amended.1 ⟨"/w", 1, []⟩ fsAllTrue
    (.write ⟨"/w/a.txt", some "txt"⟩) ⟨"/w/a.txt", some "txt"⟩ rfl

/-- C2, counterexample. The claim states that extension filtering is applied
before submission in both modes. This is false in watch mode:
`fs_monitor::start` never consults the allow-list, so with allow-list
`["exe"]` a write event for `/r/evil.bin` (extension `bin`) is still
submitted, although the walk-mode filter rejects that same path. -/
theorem c2_watch_ignores_allowlist_cex :
    watchSubmit ⟨"/r", 1, ["exe"]⟩ fsAllTrue
        (.write ⟨"/r/evil.bin", some "bin"⟩)
      = some ⟨"/r/evil.bin", some "bin"⟩ ∧
    walkDoScan ["exe"] ⟨"/r/evil.bin", some "bin"⟩ = false :=
  ⟨rfl, by decide⟩

/-- C2, amended. In walk mode, extension filtering behaves as claimed: an
empty allow-list accepts every path; a non-empty allow-list accepts a path
iff its extension exists and matches some entry case-insensitively. In watch
mode no extension filtering is applied at all: the behaviour of the watch
loop is independent of the configured arguments, the allow-list included. -/
theorem c2_extension_filter_amended :
    (∀ p : FsPath, walkDoScan [] p = true) ∧
    (∀ (extList : List String) (p : FsPath), extList ≠ [] →
        (walkDoScan extList p = true ↔
          ∃ e, p.ext = some e ∧ ∃ f ∈ extList, lowerStr f = lowerStr e)) ∧
    (∀ (a b : Arguments) (fs : FsState) (m : WatchMsg),
        loopStep a fs m = loopStep b fs m) := by
  refine ⟨fun p => rfl, fun extList p hne => ?_, fun a b fs m => ?_⟩
  · have hempty : extList.isEmpty = false := by
      cases extList
      · exact absurd rfl hne
      · rfl
    cases hext : p.ext with
    | none => simp [walkDoScan, hempty, hext]
    | some e => simp [walkDoScan, hempty, hext, List.any_eq_true]
  · cases m with
    | ok ev => cases ev <;> rfl
    | recvError e => rfl

/-- C2, witness: with allow-list `["exe"]`, the path `/r/a.EXE` (extension
`EXE`) passes the walk-mode extension filter, by the backward direction of
the amended characterization. -/
theorem c2_extension_filter_witness :
    walkDoScan ["exe"] ⟨"/r/a.EXE", some "EXE"⟩ = true :=
  (c2_extension_filter_amended.2.1 ["exe"] ⟨"/r/a.EXE", some "EXE"⟩
      (by decide)).mpr ⟨"EXE", rfl, "exe", by simp, by decide⟩

/-- C9: in walk mode an entry whose traversal raised an error is silently
dropped by `.filter_map(|e| e.ok())` and the walk continues: the submitted
jobs are exactly those of the same entry stream with the error entry
removed, so later entries are processed unchanged and the run is not
aborted. -/
theorem c9_traversal_error_skipped :
    ∀ (args : Arguments) (pre post : List (Except String WalkEntry))
      (e : String),
      walkSubmitted args (pre ++ Except.error e :: post)
        = walkSubmitted args (pre ++ post) := by
  intro args pre post e
  simp [walkSubmitted, walkCandidates, List.filterMap_append,
    List.filterMap_cons]

/-- C3, counterexample. The claim states that when the underlying receive
channel is permanently closed the run terminates and that termination is
reported. This is false: the `Err` arm of the receive match only logs at
error severity and the `loop` continues, so even a sequence of consecutive
closed-channel receive errors leaves the loop running — there is no exit. -/
theorem c3_closed_channel_no_exit_cex :
    (loopStep ⟨"/r", 1, []⟩ fsAllTrue
        (.recvError "receiving on an empty and disconnected channel")).outcome
      = LoopOutcome.next ∧
    runLoop ⟨"/r", 1, []⟩ fsAllTrue
        (List.replicate 5
          (.recvError "receiving on an empty and disconnected channel"))
      = LoopOutcome.next ∧
    LoopOutcome.next ≠ LoopOutcome.exit :=
  ⟨rfl, rfl, by decide⟩

/-- C3, amended. A single error-carrying or malformed notification is logged
and the loop continues, as claimed; but a permanently closed receive channel
does not terminate the run: the receive error is logged at error severity
and the loop continues — no sequence of received messages ever makes the
watch loop exit. -/
theorem c3_error_logged_loop_continues_amended :
    (∀ (args : Arguments) (fs : FsState) (e : String),
        loopStep args fs (.recvError e)
          = ⟨.next, none, [.errorRecv e]⟩) ∧
    (∀ (args : Arguments) (fs : FsState) (e : String) (mp : Option FsPath),
        loopStep args fs (.ok (.error e mp))
          = ⟨.next, none, [.errorEvent e mp]⟩) ∧
    (∀ (args : Arguments) (fs : FsState) (msgs : List WatchMsg),
        runLoop args fs msgs = LoopOutcome.next) :=
  ⟨fun _ _ _ => rfl, fun _ _ _ _ => rfl,
   fun args fs msgs => runLoop_next args fs msgs⟩

/-- C4, counterexample. The claim states that in both modes an invalid root
path aborts the run and is surfaced as a distinct failure. This is false in
walk mode: the traversal yields a single error entry for a nonexistent
root, `.filter_map(|e| e.ok())` drops it, and `fs_scan::start` completes
with `Ok(())` and an aggregate report of zero scanned files — the invalid
root is silently swallowed with a successful result. -/
theorem c4_walk_swallows_invalid_root_cex :
    fsScanStart ⟨"/nonexistent", 1, []⟩
        [Except.error
          "IO error for operation on /nonexistent: No such file or directory"]
        (fun _ => ⟨false, [], none⟩)
      = ([LogEvent.infoReport 0 0], Except.ok ()) :=
  rfl

/-- C4, amended. In watch mode the claim holds: a failure of watcher
construction or of installing the watch on the root (as happens for an
invalid root path) makes `fs_monitor::start` return that error before any
event is processed. In walk mode it does not: `fs_scan::start` always
returns success, and an invalid root merely produces a traversal-error
entry that is dropped, yielding a successful run with no submitted jobs. -/
theorem c4_startup_failure_amended :
    (∀ (e : String) (ws : Except String Unit),
        fsMonitorStart (.error e) ws = .fatal e) ∧
    (∀ e : String, fsMonitorStart (.ok ()) (.error e) = .fatal e) ∧
    (∀ (args : Arguments) (entries : List (Except String WalkEntry))
        (scan : FsPath → ScanResult),
        (fsScanStart args entries scan).2 = .ok ()) ∧
    (∀ (args : Arguments) (e : String) (scan : FsPath → ScanResult),
        fsScanStart args [Except.error e] scan
          = ([LogEvent.infoReport 0 0], Except.ok ())) :=
  ⟨fun _ _ => rfl, fun _ => rfl, fun _ _ _ => rfl, fun _ _ _ => rfl⟩

/-- C5: in walk mode every submitted job increments `scanned` exactly once
on completion regardless of error or detection: once the pool has drained,
`scanned` equals the number of submitted jobs (the counter is a `u32`, so
this is stated for runs of fewer than `2 ^ 32` jobs), and the final
aggregate report is the last emitted log event — strictly after every job
has completed — reporting exactly the final counters. -/
theorem c5_scanned_counts_all_jobs (jobs : List (FsPath × ScanResult))
    (h : jobs.length < u32Size) :
    (walkRun jobs).2.scanned = jobs.length ∧
    (walkRun jobs).1.getLast? =
      some (.infoReport (walkRun jobs).2.scanned (walkRun jobs).2.detected) := by
  have hs : (walkRunJobs jobs ⟨0, 0⟩).2.scanned = jobs.length % u32Size := by
    simpa using walkRunJobs_scanned jobs ⟨0, 0⟩ u32Size_pos
  have h1 : (walkRun jobs).2.scanned = jobs.length := by
    show (walkRunJobs jobs ⟨0, 0⟩).2.scanned = jobs.length
    rw [hs]
    exact Nat.mod_eq_of_lt h
  refine ⟨h1, ?_⟩
  show ((walkRunJobs jobs ⟨0, 0⟩).1
      ++ [LogEvent.infoReport (walkRunJobs jobs ⟨0, 0⟩).2.scanned
            (walkRunJobs jobs ⟨0, 0⟩).2.detected]).getLast? = _
  rw [List.getLast?_concat]
  rfl

/-- C5, witness: a concrete run of three jobs — one clean, one erroring, one
detecting — has `scanned = 3` and ends with the aggregate report of three
scanned files and one detection. -/
theorem c5_scanned_counts_all_jobs_witness :
    (walkRun [(⟨"/a", some "txt"⟩, ⟨false, [], none⟩),
              (⟨"/b", some "exe"⟩, ⟨false, [], some "unreadable"⟩),
              (⟨"/c", some "exe"⟩, ⟨true, ["EICAR"], none⟩)]).2.scanned = 3 ∧
    (walkRun [(⟨"/a", some "txt"⟩, ⟨false, [], none⟩),
              (⟨"/b", some "exe"⟩, ⟨false, [], some "unreadable"⟩),
              (⟨"/c", some "exe"⟩, ⟨true, ["EICAR"], none⟩)]).1.getLast?
      = some (LogEvent.infoReport 3 1) := by
  have h := c5_scanned_counts_all_jobs
    [(⟨"/a", some "txt"⟩, ⟨false, [], none⟩),
     (⟨"/b", some "exe"⟩, ⟨false, [], some "unreadable"⟩),
     (⟨"/c", some "exe"⟩, ⟨true, ["EICAR"], none⟩)] (by decide)
  exact ⟨h.1, by rw [h.2]; rfl⟩

/-- C6, counterexample. The claim states `detected ≤ scanned` at every point
of the run. The worker closure increments `num_detected` before
`num_scanned`, so at the point between the two increments of a detecting
job the invariant fails: after the first counter operation of a run
consisting of one detecting job, the counters read
`detected = 1, scanned = 0`. -/
theorem c6_detected_exceeds_scanned_cex :
    ¬ ((applyOps ⟨0, 0⟩
          ((runTrace [(⟨"/c/x.exe", some "exe"⟩,
            ⟨true, ["EICAR"], none⟩)]).take 1)).detected
        ≤ (applyOps ⟨0, 0⟩
          ((runTrace [(⟨"/c/x.exe", some "exe"⟩,
            ⟨true, ["EICAR"], none⟩)]).take 1)).scanned) := by
  decide

/-- C6, amended. Under any number of workers and any schedule, at every
quiescent point of a walk-mode run — a point where the counter operations
executed so far are exactly those of some set of completed jobs, in
whatever order the schedule interleaved them, with no detecting job caught
between its detected-increment and its scanned-increment — the invariant
`detected ≤ scanned` holds, and `detected` equals exactly the number of
completed jobs whose result had `detected = true` and no error. Moreover a
detected-increment occurs only in the operation sequence of such a job.
(Stated for runs of fewer than `2 ^ 32` jobs, the counters being `u32`. At
non-quiescent points the invariant can fail, per the counterexample.) -/
theorem c6_detected_le_scanned_amended (jobs : List (FsPath × ScanResult))
    (h : jobs.length < u32Size)
    (completed : List (FsPath × ScanResult)) (hsub : completed.Sublist jobs)
    (t : List CounterOp) (ht : t.Perm (runTrace completed)) :
    ((applyOps ⟨0, 0⟩ t).detected ≤ (applyOps ⟨0, 0⟩ t).scanned ∧
      (applyOps ⟨0, 0⟩ t).detected = completed.countP isHit) ∧
    (∀ r : ScanResult, CounterOp.incDetected ∈ jobOps r →
        r.detected = true ∧ r.error = none) := by
  have hlen : completed.length ≤ jobs.length := hsub.length_le
  have hlenM : completed.length < u32Size := lt_of_le_of_lt hlen h
  have hcount : completed.countP isHit ≤ completed.length :=
    List.countP_le_length _
  have hcountM : completed.countP isHit < u32Size :=
    lt_of_le_of_lt hcount hlenM
  have hcS : t.count CounterOp.incScanned = completed.length := by
    rw [ht.count_eq, runTrace_count_scanned]
  have hcD : t.count CounterOp.incDetected = completed.countP isHit := by
    rw [ht.count_eq, runTrace_count_detected]
  have hsc : (applyOps ⟨0, 0⟩ t).scanned = completed.length := by
    rw [applyOps_scanned t ⟨0, 0⟩ u32Size_pos, Nat.zero_add, hcS,
      Nat.mod_eq_of_lt hlenM]
  have hdc : (applyOps ⟨0, 0⟩ t).detected = completed.countP isHit := by
    rw [applyOps_detected t ⟨0, 0⟩ u32Size_pos, Nat.zero_add, hcD,
      Nat.mod_eq_of_lt hcountM]
  refine ⟨⟨?_, hdc⟩, fun r hr => jobOps_incDetected r hr⟩
  rw [hsc, hdc]
  exact hcount

/-- C6, witness: in a two-job run where only the first job detects, at the
quiescent point where that first job alone has completed — its two
increments observed in the reversed order another worker could interleave
them in — the counters satisfy the invariant and `detected` counts exactly
that job. -/
theorem c6_detected_le_scanned_amended_witness :
    (((applyOps ⟨0, 0⟩ [CounterOp.incScanned, CounterOp.incDetected]).detected
        ≤ (applyOps ⟨0, 0⟩
            [CounterOp.incScanned, CounterOp.incDetected]).scanned) ∧
      (applyOps ⟨0, 0⟩ [CounterOp.incScanned, CounterOp.incDetected]).detected
        = [(⟨"/c/x.exe", some "exe"⟩,
            (⟨true, ["EICAR"], none⟩ : ScanResult))].countP isHit) ∧
    (∀ r : ScanResult, CounterOp.incDetected ∈ jobOps r →
        r.detected = true ∧ r.error = none) :=
  c6_detected_le_scanned_amended
    [(⟨"/c/x.exe", some "exe"⟩, ⟨true, ["EICAR"], none⟩),
     (⟨"/d/y.txt", some "txt"⟩, ⟨false, [], none⟩)]
    (by decide)
    [(⟨"/c/x.exe", some "exe"⟩, ⟨true, ["EICAR"], none⟩)]
    (by decide)
    [CounterOp.incScanned, CounterOp.incDetected]
    (by decide)

/-- C7: in watch mode a job can be submitted only for a create,
pre-write-notice, write, or rename event; a remove, pre-remove-notice, or
chmod event never results in a submitted job; and for a rename event only
the destination path can ever be submitted, never the source. -/
theorem c7_event_kind_filtering :
    (∀ (args : Arguments) (fs : FsState) (p : FsPath),
        watchSubmit args fs (.remove p) = none ∧
        watchSubmit args fs (.noticeRemove p) = none ∧
        watchSubmit args fs (.chmod p) = none) ∧
    (∀ (args : Arguments) (fs : FsState) (ev : DebouncedEvent) (p : FsPath),
        watchSubmit args fs ev = some p → kindAccepted ev = true) ∧
    (∀ (args : Arguments) (fs : FsState) (old new : FsPath) (p : FsPath),
        watchSubmit args fs (.rename old new) = some p → p = new) := by
  refine ⟨fun args fs p => ⟨rfl, rfl, rfl⟩, fun args fs ev p h => ?_,
    fun args fs old new p h => ?_⟩
  · cases ev <;> first | rfl | exact Option.noConfusion h
  · simp only [watchSubmit, loopStep, apply_ite WatchStepOut.submitted] at h
    split at h
    · exact (Option.some.inj h).symm
    · cases h

/-- C7, witness: a rename event whose destination the filesystem reports as
an existing regular file is submitted; the theorem recovers that the event
kind is accepted and the submitted path is the destination. -/
theorem c7_event_kind_filtering_witness :
    kindAccepted (.rename ⟨"/old", none⟩ ⟨"/new", some "exe"⟩) = true ∧
    (⟨"/new", some "exe"⟩ : FsPath) = ⟨"/new", some "exe"⟩ :=
  ⟨c7_event_kind_filtering.2.1 ⟨"/r", 1, []⟩ fsAllTrue
      (.rename ⟨"/old", none⟩ ⟨"/new", some "exe"⟩) ⟨"/new", some "exe"⟩ rfl,
   c7_event_kind_filtering.2.2 ⟨"/r", 1, []⟩ fsAllTrue
      ⟨"/old", none⟩ ⟨"/new", some "exe"⟩ ⟨"/new", some "exe"⟩ rfl⟩

/-- C8: for a completed job whose result carries an error, in both modes the
only log emitted is the diagnostic-severity error log — no detection
warning is ever emitted for it — in walk mode `scanned` is still
incremented while `detected` is left unchanged, and the run is not aborted:
in a run containing the erroring job, every job before and after it is
still counted. -/
theorem c8_job_error_handling :
    ∀ (p : FsPath) (e : String) (tags : List String) (det : Bool)
      (c : Counters) (pre post : List (FsPath × ScanResult)),
      handleResult p ⟨det, tags, some e⟩ c
          = ([LogEvent.debugError e],
             { c with scanned := (c.scanned + 1) % u32Size }) ∧
      watchHandleResult p ⟨det, tags, some e⟩ = [LogEvent.debugError e] ∧
      (walkRunJobs (pre ++ (p, ⟨det, tags, some e⟩) :: post) ⟨0, 0⟩).2.scanned
          = (pre.length + 1 + post.length) % u32Size := by
  intro p e tags det c pre post
  refine ⟨rfl, rfl, ?_⟩
  have hs := walkRunJobs_scanned (pre ++ (p, ⟨det, tags, some e⟩) :: post)
    ⟨0, 0⟩ u32Size_pos
  simp only [Nat.zero_add] at hs
  rw [hs]
  congr 1
  simp only [List.length_append, List.length_cons]
  omega

/-- C10: the watch-mode entry point never returns success: it enters the
infinite receive loop (and thus never returns) iff both start-up calls
succeeded, any early return carries the error of a failed start-up call,
and no received message ever makes the loop exit. -/
theorem c10_monitor_never_returns_ok :
    (∀ (wi ws : Except String Unit),
        fsMonitorStart wi ws = .loops ↔ wi = .ok () ∧ ws = .ok ()) ∧
    (∀ (wi ws : Except String Unit) (e : String),
        fsMonitorStart wi ws = .fatal e →
          wi = .error e ∨ (wi = .ok () ∧ ws = .error e)) ∧
    (∀ (args : Arguments) (fs : FsState) (m : WatchMsg),
        (loopStep args fs m).outcome = LoopOutcome.next) := by
  refine ⟨fun wi ws => ?_, fun wi ws e h => ?_,
    fun args fs m => loopStep_outcome args fs m⟩
  · constructor
    · intro h
      cases wi with
      | error e => cases h
      | ok u =>
        cases u
        cases ws with
        | error e => cases h
        | ok v => exact ⟨rfl, rfl⟩
    · rintro ⟨rfl, rfl⟩
      rfl
  · cases wi with
    | error e' =>
      left
      rw [MonitorOutcome.fatal.inj h]
    | ok u =>
      cases u
      cases ws with
      | error e' =>
        right
        exact ⟨rfl, by rw [MonitorOutcome.fatal.inj h]⟩
      | ok v => cases h

/-- C10, witness: with both start-up calls succeeding the function enters
the loop; with watcher construction failing it returns exactly that
error. -/
theorem c10_monitor_never_returns_ok_witness :
    fsMonitorStart (.ok ()) (.ok ()) = MonitorOutcome.loops ∧
    ((Except.error "ewatch" : Except String Unit) = .error "ewatch" ∨
      ((Except.error "ewatch" : Except String Unit) = .ok () ∧
        (Except.ok () : Except String Unit) = .error "ewatch")) :=
  ⟨(c10_monitor_never_returns_ok.1 (.ok ()) (.ok ())).mpr ⟨rfl, rfl⟩,
   c10_monitor_never_returns_ok.2.1 (.error "ewatch") (.ok ()) "ewatch" rfl⟩

end Sauron
